import Mathlib

/-
Verification of ocr_standalone.py: a shallow embedding of the OCR batch
pipeline (image preprocessing, single-image processing, PDF processing,
CLI driver) together with proofs of its behavioural properties.

External collaborators (the vision library, the PDF rasterizer, the OCR
engine, the filesystem) are modelled as deterministic oracles collected in
an Env structure; observable side effects (prints, directory creation,
image writes, text-file opens and writes, OCR invocations) are recorded in
an explicit event trace.  Python exceptions are modelled with Except, with
the error value standing for the exception's message.
-/

set_option linter.unusedVariables false

namespace OCR

/-- A single-channel raster image: height, width, and the pixel grid as a
total function of (row, column); pixels are 8-bit intensities (at most 255)
wherever the image comes from the decoder or the filter chain. -/
structure GrayImg where
  h : Nat
  w : Nat
  pix : Nat → Nat → Nat

/-- A three-channel raster image, channels ordered (blue, green, red) as
loaded by the image decoder. -/
structure ColorImg where
  h : Nat
  w : Nat
  pix : Nat → Nat → Nat × Nat × Nat

/-- A raster image as handed to preprocess_image: either a two-dimensional
array (single channel) or a three-dimensional one (three colour channels),
mirroring the len(img.shape) == 3 test of the source. -/
inductive Img where
  | gray : GrayImg → Img
  | color : ColorImg → Img

/-- Models cv2.cvtColor with COLOR_BGR2GRAY: the external vision library's
standard luma-weighted colour-to-grayscale conversion, in fixed point. -/
def cvtColor_BGR2GRAY (c : ColorImg) : GrayImg :=
  ⟨c.h, c.w, fun i j =>
    (299 * (c.pix i j).2.2 + 587 * (c.pix i j).2.1 + 114 * (c.pix i j).1 + 500) / 1000⟩

/-- Models cv2.adaptiveThreshold with ADAPTIVE_THRESH_GAUSSIAN_C and
THRESH_BINARY: each output pixel is maxValue when the source pixel exceeds
its local threshold and 0 otherwise.  The Gaussian-weighted local mean of
the blockSize neighbourhood is computed inside the external library and is
abstracted here as the parameter T; the constant offset C is subtracted
from it, per the spec. -/
def adaptiveThreshold (T : GrayImg → Nat → Nat → Nat → Int) (src : GrayImg)
    (maxValue : Nat) (blockSize : Nat) (C : Int) : GrayImg :=
  ⟨src.h, src.w, fun i j =>
    if (src.pix i j : Int) > T src blockSize i j - C then maxValue else 0⟩

/-- Offsets of a kh × kw all-ones structuring element (np.ones((kh, kw))),
anchored at its centre, as used by cv2.morphologyEx. -/
def kernelOffsets (kh kw : Nat) : List (Int × Int) :=
  (List.range kh).flatMap fun r =>
    (List.range kw).map fun c =>
      (((r : Int) - ((kh / 2 : Nat) : Int)), ((c : Int) - ((kw / 2 : Nat) : Int)))

/-- Reads a pixel with replicated borders: coordinates outside the image are
clamped to the nearest edge, the library's border handling for morphology. -/
def borderPix (g : GrayImg) (i j : Int) : Nat :=
  g.pix (if i < 0 then 0 else min i.toNat (g.h - 1))
        (if j < 0 then 0 else min j.toNat (g.w - 1))

/-- The pixel values under the structuring-element window centred at (i, j). -/
def windowVals (g : GrayImg) (offs : List (Int × Int)) (i j : Nat) : List Nat :=
  offs.map fun o => borderPix g ((i : Int) + o.1) ((j : Int) + o.2)

/-- Morphological erosion on 8-bit pixels: the minimum of the window
(255, the largest 8-bit intensity, is the neutral element for min). -/
def erode (g : GrayImg) (offs : List (Int × Int)) : GrayImg :=
  ⟨g.h, g.w, fun i j => (windowVals g offs i j).foldr min 255⟩

/-- Morphological dilation: the maximum of the window. -/
def dilate (g : GrayImg) (offs : List (Int × Int)) : GrayImg :=
  ⟨g.h, g.w, fun i j => (windowVals g offs i j).foldr max 0⟩

/-- Models cv2.morphologyEx with MORPH_OPEN: erosion followed by dilation
with the same structuring element. -/
def morphologyOpen (g : GrayImg) (kh kw : Nat) : GrayImg :=
  dilate (erode g (kernelOffsets kh kw)) (kernelOffsets kh kw)

/-- The grayscale step of preprocess_image: a three-channel image is
converted with the luma-weighted conversion, a single-channel image passes
through unchanged (the if len(img.shape) == 3 branch of the source). -/
def grayOf : Img → GrayImg
  | Img.color c => cvtColor_BGR2GRAY c
  | Img.gray g => g

/-- preprocess_image from ocr_standalone.py: grayscale conversion when the
image has three channels, adaptive thresholding (Gaussian, max value 255,
block size 11, constant 2), then morphological opening with a 1 × 1
all-ones kernel.  T abstracts the library's Gaussian local-mean
computation. -/
def preprocess_image (T : GrayImg → Nat → Nat → Nat → Int) (img : Img) : GrayImg :=
  morphologyOpen (adaptiveThreshold T (grayOf img) 255 11 2) 1 1

/-- Modelled from the spec: the Image Preprocessor with the morphological
opening step removed, that is grayscale conversion followed by adaptive
thresholding alone.  Used as the right-hand side of the refinement claim
that the 1 × 1 opening is the identity. -/
def preprocessNoOpening (T : GrayImg → Nat → Nat → Nat → Int) (img : Img) : GrayImg :=
  adaptiveThreshold T (grayOf img) 255 11 2

/-- Extensional equality of images: same size and the same pixel value at
every coordinate inside the image. -/
def GrayEqOn (a b : GrayImg) : Prop :=
  a.h = b.h ∧ a.w = b.w ∧ ∀ i j, i < a.h → j < a.w → a.pix i j = b.pix i j

/-- One per-page OCR result, the source's dictionary with keys page and
text. -/
structure PageResult where
  page : Nat
  text : String
deriving DecidableEq

/-- An observable side effect of a run. -/
inductive Event where
  | print (s : String)
  | mkdir (path : String)
  | writeImage (path : String)
  | fopen (path : String)
  | fwrite (path : String) (chunk : String)
  | ocr
deriving DecidableEq

/-- The external collaborators, modelled as deterministic oracles.  A call
that can raise in Python returns Except; the error value stands for the
exception's message. -/
structure Env where
  imread : String → Option Img
  imwrite : String → GrayImg → Except String Unit
  convert_from_path : String → Except String (List Img)
  savePIL : String → Img → Except String Unit
  image_to_string : GrayImg → Except String String
  makedirs : String → Except String Unit
  T : GrayImg → Nat → Nat → Nat → Int

/-- str.lower restricted to ASCII, as applied to the file extension. -/
def lowerStr (s : String) : String := (s.data.map Char.toLower).asString

/-- os.path.basename: the part of the path after the last slash. -/
def basenameStr (p : String) : String :=
  ((p.data.reverse.takeWhile fun c => c != '/').reverse).asString

/-- The extension part of os.path.splitext: the final dot-suffix of the
basename, empty when the basename has no dot after its leading dots. -/
def splitextExt (p : String) : String :=
  let b := (basenameStr p).data
  let rest := b.dropWhile fun c => c == '.'
  if rest.contains '.' then
    ('.' :: (rest.reverse.takeWhile fun c => c != '.').reverse).asString
  else ""

/-- The lowercased extension the CLI driver dispatches on. -/
def fileExt (p : String) : String := lowerStr (splitextExt p)

/-- os.path.join for the two-argument uses in the source. -/
def joinPath (a b : String) : String :=
  if b.startsWith "/" then b
  else if a.isEmpty || a.endsWith "/" then a ++ b
  else a ++ "/" ++ b

def pageFileName (n : Nat) : String := "page_" ++ toString n ++ ".jpg"

def preprocessedFileName (n : Nat) : String := "preprocessed_page_" ++ toString n ++ ".jpg"

def sepChunk (n : Nat) : String := "\n\n===== PAGE " ++ toString n ++ " =====\n\n"

def pdfSummaryMsg (n : Nat) (out : String) : String :=
  "Extracted text from " ++ toString n ++ " pages saved to " ++ out

def imageSuccessMsg (out : String) : String := "Extracted text saved to " ++ out

def loadFailMsg (p : String) : String := "Failed to load image: " ++ p

def imageErrMsg (p e : String) : String := "Error processing image " ++ p ++ ": " ++ e

def pdfErrMsg (p e : String) : String := "Error processing PDF " ++ p ++ ": " ++ e

def convertingMsg (p : String) : String := "Converting PDF to images: " ++ p

def pageMsg (n total : Nat) : String :=
  "Processing page " ++ toString n ++ "/" ++ toString total

def unsupportedMsg (ext : String) : String := "Unsupported file format: " ++ ext

def supportedMsg : String := "Supported formats: PDF, JPG, JPEG, PNG, TIFF, BMP"

/-- The body of process_image_file's try block: load, preprocess, save the
preprocessed copy next to the working directory, then OCR.  Returns the
recognized text, none when the decoder produced no usable buffer. -/
def imageTry (env : Env) (image_path : String) :
    Except String (Option String) × List Event :=
  match env.imread image_path with
  | none => (Except.ok none, [Event.print (loadFailMsg image_path)])
  | some img =>
    let preprocessed := preprocess_image env.T img
    match env.imwrite ("preprocessed_" ++ basenameStr image_path) preprocessed with
    | Except.error e => (Except.error e, [])
    | Except.ok _ =>
      match env.image_to_string preprocessed with
      | Except.error e =>
          (Except.error e,
           [Event.writeImage ("preprocessed_" ++ basenameStr image_path), Event.ocr])
      | Except.ok text =>
          (Except.ok (some text),
           [Event.writeImage ("preprocessed_" ++ basenameStr image_path), Event.ocr])

/-- process_image_file from ocr_standalone.py: the try body wrapped in the
except handler that logs and converts any exception into None. -/
def process_image_file (env : Env) (image_path : String) :
    Option String × List Event :=
  match imageTry env image_path with
  | (Except.ok r, evs) => (r, evs)
  | (Except.error e, evs) => (none, evs ++ [Event.print (imageErrMsg image_path e)])

/-- The if output_folder: os.makedirs(...) step; a falsy folder (None or the
empty string) skips directory creation. -/
def mkdirsStep (env : Env) (folder : Option String) :
    Except String Unit × List Event :=
  match folder with
  | none => (Except.ok (), [])
  | some d =>
    if d.isEmpty then (Except.ok (), [])
    else
      match env.makedirs d with
      | Except.error e => (Except.error e, [])
      | Except.ok _ => (Except.ok (), [Event.mkdir d])

/-- The artifact-saving step of the per-page loop: with a truthy output
folder, save the original page then the preprocessed page. -/
def saveArtifacts (env : Env) (folder : Option String) (pageNum : Nat)
    (image : Img) (preprocessed : GrayImg) : Except String Unit × List Event :=
  match folder with
  | none => (Except.ok (), [])
  | some d =>
    if d.isEmpty then (Except.ok (), [])
    else
      match env.savePIL (joinPath d (pageFileName pageNum)) image with
      | Except.error e => (Except.error e, [])
      | Except.ok _ =>
        match env.imwrite (joinPath d (preprocessedFileName pageNum)) preprocessed with
        | Except.error e => (Except.error e, [Event.writeImage (joinPath d (pageFileName pageNum))])
        | Except.ok _ =>
            (Except.ok (),
             [Event.writeImage (joinPath d (pageFileName pageNum)),
              Event.writeImage (joinPath d (preprocessedFileName pageNum))])

/-- One iteration of the per-page loop: progress print, preprocessing,
optional artifact saving, then OCR on the preprocessed image. -/
def pdfPageStep (env : Env) (folder : Option String) (total pageNum : Nat)
    (image : Img) : Except String PageResult × List Event :=
  let preprocessed := preprocess_image env.T image
  let saves := saveArtifacts env folder pageNum image preprocessed
  let evs0 := Event.print (pageMsg pageNum total) :: saves.2
  match saves.1 with
  | Except.error e => (Except.error e, evs0)
  | Except.ok _ =>
    match env.image_to_string preprocessed with
    | Except.error e => (Except.error e, evs0 ++ [Event.ocr])
    | Except.ok text => (Except.ok ⟨pageNum, text⟩, evs0 ++ [Event.ocr])

/-- The for i, image in enumerate(images) loop of process_pdf_file, started
at index i; any page failure aborts the whole loop with that error. -/
def pdfLoop (env : Env) (folder : Option String) (total : Nat)
    (images : List Img) (i : Nat) : Except String (List PageResult) × List Event :=
  match images with
  | [] => (Except.ok [], [])
  | image :: rest =>
    let step := pdfPageStep env folder total (i + 1) image
    match step.1 with
    | Except.error e => (Except.error e, step.2)
    | Except.ok r =>
      let tail := pdfLoop env folder total rest (i + 1)
      (tail.1.map fun rs => r :: rs, step.2 ++ tail.2)

/-- The body of process_pdf_file's try block: optional directory creation,
rasterization, then the per-page loop. -/
def pdfTry (env : Env) (pdf_path : String) (output_folder : Option String) :
    Except String (List PageResult) × List Event :=
  match mkdirsStep env output_folder with
  | (Except.error e, evs) => (Except.error e, evs)
  | (Except.ok _, evs) =>
    let evs2 := evs ++ [Event.print (convertingMsg pdf_path)]
    match env.convert_from_path pdf_path with
    | Except.error e => (Except.error e, evs2)
    | Except.ok images =>
      let loop := pdfLoop env output_folder images.length images 0
      (loop.1, evs2 ++ loop.2)

/-- process_pdf_file from ocr_standalone.py: the try body wrapped in the
except handler that logs and returns the empty list on any exception. -/
def process_pdf_file (env : Env) (pdf_path : String) (output_folder : Option String) :
    List PageResult × List Event :=
  match pdfTry env pdf_path output_folder with
  | (Except.ok results, evs) => (results, evs)
  | (Except.error e, evs) => ([], evs ++ [Event.print (pdfErrMsg pdf_path e)])

/-- The parsed command-line arguments. -/
structure Args where
  input : String
  output : String
  pages : Bool
  pagesDir : String

/-- The folder argument main passes to the PDF processor:
args.pages_dir if args.pages else None. -/
def mainFolder (args : Args) : Option String :=
  if args.pages then some args.pagesDir else none

def supportedImageExts : List String := [".jpg", ".jpeg", ".png", ".tiff", ".bmp"]

/-- main from ocr_standalone.py, as the event trace of one run: dispatch on
the lowercased extension; the PDF branch always opens the output file,
writes a separator and the text per page result and prints a summary; the
image branch writes and reports only when the returned text is truthy. -/
def main (env : Env) (args : Args) : List Event :=
  let file_ext := fileExt args.input
  if file_ext = ".pdf" then
    let res := process_pdf_file env args.input (mainFolder args)
    res.2 ++
      (Event.fopen args.output ::
        res.1.flatMap fun r =>
          [Event.fwrite args.output (sepChunk r.page), Event.fwrite args.output r.text]) ++
      [Event.print (pdfSummaryMsg res.1.length args.output)]
  else if supportedImageExts.contains file_ext then
    let res := process_image_file env args.input
    match res.1 with
    | some t =>
      if t.isEmpty then res.2
      else res.2 ++
        [Event.fopen args.output, Event.fwrite args.output t,
         Event.print (imageSuccessMsg args.output)]
    | none => res.2
  else
    [Event.print (unsupportedMsg file_ext), Event.print supportedMsg]

/-- The paths of the image files written during a run, in order. -/
def writeImagePaths (evs : List Event) : List String :=
  evs.filterMap fun e =>
    match e with
    | Event.writeImage p => some p
    | _ => none

/-- The chunks written to the text file at the given path, in order. -/
def fwriteChunks (path : String) (evs : List Event) : List String :=
  evs.filterMap fun e =>
    match e with
    | Event.fwrite p c => if p = path then some c else none
    | _ => none

/-- Whether an event opens or writes a text file (the observable footprint
of the output file). -/
def isOutputEvent : Event → Bool
  | Event.fopen _ => true
  | Event.fwrite _ _ => true
  | _ => false

/-- Whether an event creates a directory. -/
def isMkdirEvent : Event → Bool
  | Event.mkdir _ => true
  | _ => false

/-- Whether an event writes an image file. -/
def isWriteImageEvent : Event → Bool
  | Event.writeImage _ => true
  | _ => false

/-- A concrete 2 × 2 single-channel test image. -/
def imgA : Img := Img.gray ⟨2, 2, fun _ _ => 100⟩

/-- A concrete 3 × 2 single-channel test image, distinguishable from imgA by
its height. -/
def imgB : Img := Img.gray ⟨3, 2, fun _ _ => 7⟩

/-- A concrete 2 × 2 three-channel test image. -/
def imgC : Img := Img.color ⟨2, 2, fun _ _ => (10, 20, 30)⟩

/-- A concrete local-threshold oracle for tests. -/
def T0 : GrayImg → Nat → Nat → Nat → Int := fun _ _ _ _ => 50

/-- A test environment in which every external call succeeds: the rasterizer
yields two pages and the OCR engine always recognizes some text. -/
def envOK : Env :=
  ⟨fun _ => some imgA, fun _ _ => Except.ok (), fun _ => Except.ok [imgA, imgB],
   fun _ _ => Except.ok (), fun _ => Except.ok "hello", fun _ => Except.ok (), T0⟩

/-- A test environment in which the OCR engine raises on the second page
(the one of height 3) after succeeding on the first. -/
def envBoom : Env :=
  ⟨fun _ => some imgA, fun _ _ => Except.ok (), fun _ => Except.ok [imgA, imgB],
   fun _ _ => Except.ok (),
   fun g => if g.h = 3 then Except.error "boom" else Except.ok "hello",
   fun _ => Except.ok (), T0⟩

/-- A test environment in which PDF rasterization raises. -/
def envConvFail : Env :=
  ⟨fun _ => some imgA, fun _ _ => Except.ok (), fun _ => Except.error "corrupt",
   fun _ _ => Except.ok (), fun _ => Except.ok "hello", fun _ => Except.ok (), T0⟩

/-- A test environment in which the image decoder returns no usable buffer. -/
def envNoLoad : Env :=
  ⟨fun _ => none, fun _ _ => Except.ok (), fun _ => Except.ok [imgA],
   fun _ _ => Except.ok (), fun _ => Except.ok "hello", fun _ => Except.ok (), T0⟩

/-- A test environment in which loading and OCR succeed but the OCR engine
returns the empty string. -/
def envEmptyText : Env :=
  ⟨fun _ => some imgA, fun _ _ => Except.ok (), fun _ => Except.ok [imgA],
   fun _ _ => Except.ok (), fun _ => Except.ok "", fun _ => Except.ok (), T0⟩

/-- A test environment with a successful one-page PDF run. -/
def envOnePage : Env :=
  ⟨fun _ => some imgA, fun _ _ => Except.ok (), fun _ => Except.ok [imgA],
   fun _ _ => Except.ok (), fun _ => Except.ok "hello", fun _ => Except.ok (), T0⟩

/-- Fixed CLI arguments for a PDF run without page artifacts. -/
def argsPdf : Args := ⟨"doc.pdf", "out.txt", false, "extracted_pages"⟩

/-- Fixed CLI arguments with an unsupported input extension. -/
def argsTxt : Args := ⟨"doc.txt", "out.txt", false, "extracted_pages"⟩

/-- Fixed CLI arguments for a single-image run. -/
def argsJpg : Args := ⟨"pic.jpg", "out.txt", false, "extracted_pages"⟩

/-- Fixed CLI arguments for a single-image run on a png. -/
def argsPng : Args := ⟨"pic.png", "out.txt", false, "extracted_pages"⟩

/-- Fixed CLI arguments for a PDF run requesting artifacts with the empty
pages directory. -/
def argsCex : Args := ⟨"doc.pdf", "out.txt", true, ""⟩

/-- Fixed CLI arguments for a PDF run with artifacts into pages. -/
def argsPages : Args := ⟨"doc.pdf", "out.txt", true, "pages"⟩

/- ------------------------------------------------------------------ -/
/- Theorems                                                            -/
/- ------------------------------------------------------------------ -/

theorem adaptiveThreshold_pix_binary (T : GrayImg → Nat → Nat → Nat → Int)
    (src : GrayImg) (maxValue blockSize : Nat) (C : Int) (i j : Nat) :
    (adaptiveThreshold T src maxValue blockSize C).pix i j = maxValue ∨
      (adaptiveThreshold T src maxValue blockSize C).pix i j = 0 := by
  simp only [adaptiveThreshold]
  split
  · exact Or.inl rfl
  · exact Or.inr rfl

theorem foldr_min_binary (l : List Nat) (h : ∀ x ∈ l, x = 0 ∨ x = 255) :
    l.foldr min 255 = 0 ∨ l.foldr min 255 = 255 := by
  induction l with
  | nil => exact Or.inr rfl
  | cons a t ih =>
    have ha := h a (List.mem_cons_self a t)
    have ht := ih fun x hx => h x (List.mem_cons_of_mem a hx)
    simp only [List.foldr_cons]
    omega

theorem foldr_max_binary (l : List Nat) (h : ∀ x ∈ l, x = 0 ∨ x = 255) :
    l.foldr max 0 = 0 ∨ l.foldr max 0 = 255 := by
  induction l with
  | nil => exact Or.inl rfl
  | cons a t ih =>
    have ha := h a (List.mem_cons_self a t)
    have ht := ih fun x hx => h x (List.mem_cons_of_mem a hx)
    simp only [List.foldr_cons]
    omega

theorem mem_windowVals (g : GrayImg) (offs : List (Int × Int)) (i j : Nat)
    (x : Nat) (hx : x ∈ windowVals g offs i j) : ∃ a b, x = g.pix a b := by
  simp only [windowVals, List.mem_map] at hx
  obtain ⟨o, _, ho⟩ := hx
  exact ⟨_, _, ho.symm.trans rfl⟩

theorem erode_pix_binary (g : GrayImg) (offs : List (Int × Int))
    (hbin : ∀ a b, g.pix a b = 0 ∨ g.pix a b = 255) (i j : Nat) :
    (erode g offs).pix i j = 0 ∨ (erode g offs).pix i j = 255 := by
  apply foldr_min_binary
  intro x hx
  obtain ⟨a, b, hab⟩ := mem_windowVals g offs i j x hx
  rw [hab]; exact hbin a b

theorem dilate_pix_binary (g : GrayImg) (offs : List (Int × Int))
    (hbin : ∀ a b, g.pix a b = 0 ∨ g.pix a b = 255) (i j : Nat) :
    (dilate g offs).pix i j = 0 ∨ (dilate g offs).pix i j = 255 := by
  apply foldr_max_binary
  intro x hx
  obtain ⟨a, b, hab⟩ := mem_windowVals g offs i j x hx
  rw [hab]; exact hbin a b

/-- C3: for every valid single-channel or three-channel input image,
preprocess_image returns a single-channel binary image (every pixel is
either 0 or 255) with the same width and height as the grayscale-converted
input. -/
theorem preprocess_binary_same_shape (T : GrayImg → Nat → Nat → Nat → Int)
    (img : Img) :
    (preprocess_image T img).h = (grayOf img).h ∧
    (preprocess_image T img).w = (grayOf img).w ∧
    ∀ i j, (preprocess_image T img).pix i j = 0 ∨
      (preprocess_image T img).pix i j = 255 := by
  refine ⟨rfl, rfl, fun i j => ?_⟩
  have hthresh : ∀ a b,
      (adaptiveThreshold T (grayOf img) 255 11 2).pix a b = 0 ∨
        (adaptiveThreshold T (grayOf img) 255 11 2).pix a b = 255 := by
    intro a b
    rcases adaptiveThreshold_pix_binary T (grayOf img) 255 11 2 a b with h | h
    · exact Or.inr h
    · exact Or.inl h
  exact dilate_pix_binary _ _
    (fun a b => erode_pix_binary _ _ hthresh a b) i j

theorem kernelOffsets_one_one : kernelOffsets 1 1 = [(0, 0)] := by decide

theorem borderPix_in_range (g : GrayImg) (i j : Nat) (hi : i < g.h)
    (hj : j < g.w) : borderPix g (i : Int) (j : Int) = g.pix i j := by
  simp only [borderPix]
  have h1 : ¬ ((i : Int) < 0) := by omega
  have h2 : ¬ ((j : Int) < 0) := by omega
  rw [if_neg h1, if_neg h2]
  have h3 : (i : Int).toNat = i := Int.toNat_natCast i
  have h4 : (j : Int).toNat = j := Int.toNat_natCast j
  rw [h3, h4, Nat.min_eq_left (by omega), Nat.min_eq_left (by omega)]

/-- C4: the morphological opening step of preprocess_image, performed with a
1 × 1 structuring element, is the identity on the thresholded image:
preprocess_image agrees, as an image, with the same pipeline with the
opening removed (grayscale conversion followed by adaptive thresholding
alone). -/
theorem opening_noop_equiv (T : GrayImg → Nat → Nat → Nat → Int) (img : Img) :
    GrayEqOn (preprocess_image T img) (preprocessNoOpening T img) := by
  refine ⟨rfl, rfl, fun i j hi hj => ?_⟩
  have hi' : i < (adaptiveThreshold T (grayOf img) 255 11 2).h := hi
  have hj' : j < (adaptiveThreshold T (grayOf img) 255 11 2).w := hj
  show (morphologyOpen (adaptiveThreshold T (grayOf img) 255 11 2) 1 1).pix i j =
    (adaptiveThreshold T (grayOf img) 255 11 2).pix i j
  set t := adaptiveThreshold T (grayOf img) 255 11 2 with ht
  have hker : kernelOffsets 1 1 = [(0, 0)] := kernelOffsets_one_one
  have htpix : t.pix i j ≤ 255 := by
    rcases adaptiveThreshold_pix_binary T (grayOf img) 255 11 2 i j with h | h
    · rw [ht]; omega
    · rw [ht]; omega
  have herode : (erode t (kernelOffsets 1 1)).pix i j = t.pix i j := by
    simp only [erode, hker, windowVals, List.map_cons, List.map_nil,
      List.foldr_cons, List.foldr_nil, add_zero]
    rw [borderPix_in_range t i j hi' hj']
    omega
  have hborder : borderPix (erode t (kernelOffsets 1 1)) (i : Int) (j : Int) =
      (erode t (kernelOffsets 1 1)).pix i j :=
    borderPix_in_range _ i j hi' hj'
  rw [hker] at hborder herode
  simp only [morphologyOpen, dilate, hker, windowVals, List.map_cons,
    List.map_nil, List.foldr_cons, List.foldr_nil, add_zero]
  rw [hborder, herode]
  omega

/-- C5: preprocess_image applies grayscale conversion exactly when the input
image has three colour channels, and otherwise passes the image unchanged
into the thresholding step; a single-channel input is never sent through the
colour-to-grayscale conversion. -/
theorem grayscale_iff_three_channels :
    (∀ T (g : GrayImg), preprocess_image T (Img.gray g) =
      morphologyOpen (adaptiveThreshold T g 255 11 2) 1 1) ∧
    (∀ T (c : ColorImg), preprocess_image T (Img.color c) =
      morphologyOpen (adaptiveThreshold T (cvtColor_BGR2GRAY c) 255 11 2) 1 1) ∧
    (∀ g : GrayImg, grayOf (Img.gray g) = g) ∧
    (∀ c : ColorImg, grayOf (Img.color c) = cvtColor_BGR2GRAY c) :=
  ⟨fun _ _ => rfl, fun _ _ => rfl, fun _ => rfl, fun _ => rfl⟩

/-- Witness for opening_noop_equiv at a concrete image. -/
theorem opening_noop_equiv_witness :
    GrayEqOn (preprocess_image T0 imgA) (preprocessNoOpening T0 imgA) :=
  opening_noop_equiv T0 imgA

theorem fopen_not_mem_of_no_output (p : String) (evs : List Event)
    (h : ∀ e ∈ evs, isOutputEvent e = false) : Event.fopen p ∉ evs := by
  intro hmem
  have := h _ hmem
  simp [isOutputEvent] at this

theorem fwrite_not_mem_of_no_output (p c : String) (evs : List Event)
    (h : ∀ e ∈ evs, isOutputEvent e = false) : Event.fwrite p c ∉ evs := by
  intro hmem
  have := h _ hmem
  simp [isOutputEvent] at this

theorem fwriteChunks_nil_of_no_output (p : String) (evs : List Event)
    (h : ∀ e ∈ evs, isOutputEvent e = false) : fwriteChunks p evs = [] := by
  induction evs with
  | nil => rfl
  | cons a t ih =>
    have ha := h a (List.mem_cons_self a t)
    have ht := ih fun e he => h e (List.mem_cons_of_mem a he)
    cases a <;> simp [fwriteChunks, List.filterMap_cons] at ht ⊢ <;>
      first
      | exact ht
      | simp [isOutputEvent] at ha

theorem writeImagePaths_append (l1 l2 : List Event) :
    writeImagePaths (l1 ++ l2) = writeImagePaths l1 ++ writeImagePaths l2 :=
  List.filterMap_append l1 l2 _

theorem fwriteChunks_append (p : String) (l1 l2 : List Event) :
    fwriteChunks p (l1 ++ l2) = fwriteChunks p l1 ++ fwriteChunks p l2 :=
  List.filterMap_append l1 l2 _

theorem writeImagePaths_nil_of (evs : List Event)
    (h : ∀ e ∈ evs, isWriteImageEvent e = false) : writeImagePaths evs = [] := by
  induction evs with
  | nil => rfl
  | cons a t ih =>
    have ha := h a (List.mem_cons_self a t)
    have ht := ih fun e he => h e (List.mem_cons_of_mem a he)
    cases a <;> simp [writeImagePaths, List.filterMap_cons] at ht ⊢ <;>
      first
      | exact ht
      | simp [isWriteImageEvent] at ha

theorem saveArtifacts_no_output (env : Env) (folder : Option String)
    (n : Nat) (img : Img) (pre : GrayImg) :
    ∀ e ∈ (saveArtifacts env folder n img pre).2, isOutputEvent e = false := by
  intro e he
  simp only [saveArtifacts] at he
  split at he
  · simp at he
  · split at he
    · simp at he
    · split at he
      · simp at he
      · split at he
        · simp at he
          subst he; rfl
        · simp at he
          rcases he with he | he <;> subst he <;> rfl

theorem mkdirsStep_no_output (env : Env) (folder : Option String) :
    ∀ e ∈ (mkdirsStep env folder).2, isOutputEvent e = false := by
  intro e he
  simp only [mkdirsStep] at he
  split at he
  · simp at he
  · split at he
    · simp at he
    · split at he
      · simp at he
      · simp at he
        subst he; rfl

theorem pdfPageStep_no_output (env : Env) (folder : Option String)
    (total n : Nat) (img : Img) :
    ∀ e ∈ (pdfPageStep env folder total n img).2, isOutputEvent e = false := by
  intro e he
  have hsa := saveArtifacts_no_output env folder n img (preprocess_image env.T img)
  simp only [pdfPageStep] at he
  cases hs : (saveArtifacts env folder n img (preprocess_image env.T img)).1 with
  | error e2 =>
    simp only [hs, List.mem_cons] at he
    rcases he with he | he
    · subst he; rfl
    · exact hsa e he
  | ok u =>
    simp only [hs] at he
    cases ho : env.image_to_string (preprocess_image env.T img) with
    | error e2 =>
      simp only [ho, List.cons_append, List.mem_cons, List.mem_append,
        List.mem_singleton] at he
      rcases he with he | he | he | he
      · subst he; rfl
      · exact hsa e he
      · subst he; rfl
      · simp at he
    | ok text =>
      simp only [ho, List.cons_append, List.mem_cons, List.mem_append,
        List.mem_singleton] at he
      rcases he with he | he | he | he
      · subst he; rfl
      · exact hsa e he
      · subst he; rfl
      · simp at he

theorem pdfLoop_no_output (env : Env) (folder : Option String) (total : Nat) :
    ∀ (images : List Img) (i : Nat),
      ∀ e ∈ (pdfLoop env folder total images i).2, isOutputEvent e = false := by
  intro images
  induction images with
  | nil => intro i e he; simp [pdfLoop] at he
  | cons image rest ih =>
    intro i e he
    simp only [pdfLoop] at he
    split at he
    · exact pdfPageStep_no_output env folder total (i + 1) image e he
    · simp only [List.mem_append] at he
      rcases he with he | he
      · exact pdfPageStep_no_output env folder total (i + 1) image e he
      · exact ih (i + 1) e he

theorem pdfTry_no_output (env : Env) (path : String) (folder : Option String) :
    ∀ e ∈ (pdfTry env path folder).2, isOutputEvent e = false := by
  intro e he
  have hmk := mkdirsStep_no_output env folder
  cases hmkd : mkdirsStep env folder with
  | mk mfst mevs =>
    rw [hmkd] at hmk
    cases mfst with
    | error e2 =>
      simp only [pdfTry, hmkd] at he
      exact hmk e he
    | ok u =>
      simp only [pdfTry, hmkd] at he
      cases hconv : env.convert_from_path path with
      | error e2 =>
        rw [hconv] at he
        simp only [List.mem_append, List.mem_singleton] at he
        rcases he with he | he
        · exact hmk e he
        · subst he; rfl
      | ok images =>
        rw [hconv] at he
        simp only [List.mem_append, List.mem_singleton] at he
        rcases he with (he | he) | he
        · exact hmk e he
        · subst he; rfl
        · exact pdfLoop_no_output env folder images.length images 0 e he

theorem process_pdf_file_no_output (env : Env) (path : String)
    (folder : Option String) :
    ∀ e ∈ (process_pdf_file env path folder).2, isOutputEvent e = false := by
  intro e he
  have htry := pdfTry_no_output env path folder
  cases htr : pdfTry env path folder with
  | mk tfst tevs =>
    rw [htr] at htry
    cases tfst with
    | error e2 =>
      simp only [process_pdf_file, htr, List.mem_append, List.mem_singleton] at he
      rcases he with he | he
      · exact htry e he
      · subst he; rfl
    | ok results =>
      simp only [process_pdf_file, htr] at he
      exact htry e he

theorem saveArtifacts_some_ok (env : Env) (d : String) (n : Nat) (img : Img)
    (pre : GrayImg) (hd : d ≠ "")
    (hok : (saveArtifacts env (some d) n img pre).1 = Except.ok ()) :
    (saveArtifacts env (some d) n img pre).2 =
      [Event.writeImage (joinPath d (pageFileName n)),
       Event.writeImage (joinPath d (preprocessedFileName n))] := by
  have hde : d.isEmpty = false := by
    cases hb : d.isEmpty
    · rfl
    · exact absurd ((String.isEmpty_iff d).1 hb) hd
  simp only [saveArtifacts, hde, Bool.false_eq_true, if_false] at hok ⊢
  cases hs : env.savePIL (joinPath d (pageFileName n)) img with
  | error e => simp only [hs] at hok; cases hok
  | ok u =>
    simp only [hs] at hok ⊢
    cases hw : env.imwrite (joinPath d (preprocessedFileName n)) pre with
    | error e => simp only [hw] at hok; cases hok
    | ok v => simp only [hw]

theorem mkdirsStep_some_ok (env : Env) (d : String) (hd : d ≠ "")
    (hok : (mkdirsStep env (some d)).1 = Except.ok ()) :
    (mkdirsStep env (some d)).2 = [Event.mkdir d] := by
  have hde : d.isEmpty = false := by
    cases hb : d.isEmpty
    · rfl
    · exact absurd ((String.isEmpty_iff d).1 hb) hd
  simp only [mkdirsStep, hde, Bool.false_eq_true, if_false] at hok ⊢
  cases hm : env.makedirs d with
  | error e => simp only [hm] at hok; cases hok
  | ok u => simp only [hm]

theorem pdfPageStep_ok (env : Env) (folder : Option String) (total n : Nat)
    (img : Img) (r : PageResult)
    (h : (pdfPageStep env folder total n img).1 = Except.ok r) :
    r.page = n ∧
    (saveArtifacts env folder n img (preprocess_image env.T img)).1 = Except.ok () ∧
    (pdfPageStep env folder total n img).2 =
      Event.print (pageMsg n total) ::
        (saveArtifacts env folder n img (preprocess_image env.T img)).2 ++
        [Event.ocr] := by
  cases hs : (saveArtifacts env folder n img (preprocess_image env.T img)).1 with
  | error e =>
    simp only [pdfPageStep, hs] at h
    cases h
  | ok u =>
    cases u
    cases ho : env.image_to_string (preprocess_image env.T img) with
    | error e =>
      simp only [pdfPageStep, hs, ho] at h
      cases h
    | ok text =>
      simp only [pdfPageStep, hs, ho] at h
      injection h with h2
      subst h2
      refine ⟨rfl, rfl, ?_⟩
      simp only [pdfPageStep, hs, ho, List.cons_append]

theorem pdfLoop_ok_pages (env : Env) (folder : Option String) (total : Nat) :
    ∀ (images : List Img) (i : Nat) (results : List PageResult),
      (pdfLoop env folder total images i).1 = Except.ok results →
      results.map PageResult.page = List.range' (i + 1) images.length := by
  intro images
  induction images with
  | nil =>
    intro i results h
    simp only [pdfLoop] at h
    cases h
    rfl
  | cons image rest ih =>
    intro i results h
    simp only [pdfLoop] at h
    cases hstep : (pdfPageStep env folder total (i + 1) image).1 with
    | error e => simp only [hstep] at h; cases h
    | ok r =>
      simp only [hstep] at h
      cases htail : (pdfLoop env folder total rest (i + 1)).1 with
      | error e => simp only [htail, Except.map] at h; cases h
      | ok rs =>
        simp only [htail, Except.map] at h
        cases h
        have hpage := (pdfPageStep_ok env folder total (i + 1) image r hstep).1
        have hrest := ih (i + 1) rs htail
        simp only [List.map_cons, List.length_cons, hpage, hrest]
        rfl

theorem pdfLoop_ok_length (env : Env) (folder : Option String) (total : Nat)
    (images : List Img) (i : Nat) (results : List PageResult)
    (h : (pdfLoop env folder total images i).1 = Except.ok results) :
    results.length = images.length := by
  have hmap := pdfLoop_ok_pages env folder total images i results h
  have h1 := congrArg List.length hmap
  simp only [List.length_map, List.length_range'] at h1
  exact h1

theorem pdfLoop_artifacts (env : Env) (d : String) (total : Nat) (hd : d ≠ "") :
    ∀ (images : List Img) (i : Nat) (results : List PageResult),
      (pdfLoop env (some d) total images i).1 = Except.ok results →
      writeImagePaths (pdfLoop env (some d) total images i).2 =
        (List.range' (i + 1) images.length).flatMap fun p =>
          [joinPath d (pageFileName p), joinPath d (preprocessedFileName p)] := by
  intro images
  induction images with
  | nil => intro i results h; rfl
  | cons image rest ih =>
    intro i results h
    simp only [pdfLoop] at h ⊢
    cases hstep : (pdfPageStep env (some d) total (i + 1) image).1 with
    | error e => simp only [hstep] at h; cases h
    | ok r =>
      simp only [hstep] at h ⊢
      cases htail : (pdfLoop env (some d) total rest (i + 1)).1 with
      | error e => simp only [htail, Except.map] at h; cases h
      | ok rs =>
        obtain ⟨hpage, hsok, hevs⟩ :=
          pdfPageStep_ok env (some d) total (i + 1) image r hstep
        have hsave := saveArtifacts_some_ok env d (i + 1) image
          (preprocess_image env.T image) hd hsok
        rw [writeImagePaths_append, hevs]
        have hstepimgs :
            writeImagePaths
              (Event.print (pageMsg (i + 1) total) ::
                (saveArtifacts env (some d) (i + 1) image
                  (preprocess_image env.T image)).2 ++ [Event.ocr]) =
              [joinPath d (pageFileName (i + 1)),
               joinPath d (preprocessedFileName (i + 1))] := by
          rw [hsave]
          rfl
        rw [hstepimgs, ih (i + 1) rs htail]
        simp only [List.length_cons, List.range']
        rfl

theorem pdfTry_ok_parts (env : Env) (path : String) (folder : Option String)
    (images : List Img) (results : List PageResult)
    (hconv : env.convert_from_path path = Except.ok images)
    (hok : (pdfTry env path folder).1 = Except.ok results) :
    (pdfLoop env folder images.length images 0).1 = Except.ok results ∧
    (mkdirsStep env folder).1 = Except.ok () ∧
    (pdfTry env path folder).2 =
      (mkdirsStep env folder).2 ++ [Event.print (convertingMsg path)] ++
        (pdfLoop env folder images.length images 0).2 := by
  cases hmkd : mkdirsStep env folder with
  | mk mfst mevs =>
    cases mfst with
    | error e2 => simp only [pdfTry, hmkd] at hok; cases hok
    | ok u =>
      cases u
      have h1 : (pdfLoop env folder images.length images 0).1 = Except.ok results := by
        simp only [pdfTry, hmkd, hconv] at hok
        exact hok
      refine ⟨h1, rfl, ?_⟩
      simp [pdfTry, hmkd, hconv]

theorem process_pdf_file_of_ok (env : Env) (path : String)
    (folder : Option String) (results : List PageResult)
    (hok : (pdfTry env path folder).1 = Except.ok results) :
    (process_pdf_file env path folder).1 = results ∧
    (process_pdf_file env path folder).2 = (pdfTry env path folder).2 := by
  cases htr : pdfTry env path folder with
  | mk tfst tevs =>
    rw [htr] at hok
    simp only at hok
    subst hok
    simp [process_pdf_file, htr]

theorem process_pdf_file_of_error (env : Env) (path : String)
    (folder : Option String) (e : String)
    (herr : (pdfTry env path folder).1 = Except.error e) :
    (process_pdf_file env path folder).1 = [] ∧
    (process_pdf_file env path folder).2 =
      (pdfTry env path folder).2 ++ [Event.print (pdfErrMsg path e)] := by
  cases htr : pdfTry env path folder with
  | mk tfst tevs =>
    rw [htr] at herr
    simp only at herr
    subst herr
    simp [process_pdf_file, htr]

theorem main_pdf_eq (env : Env) (args : Args)
    (hext : fileExt args.input = ".pdf") :
    main env args =
      (process_pdf_file env args.input (mainFolder args)).2 ++
        (Event.fopen args.output ::
          (process_pdf_file env args.input (mainFolder args)).1.flatMap fun r =>
            [Event.fwrite args.output (sepChunk r.page),
             Event.fwrite args.output r.text]) ++
        [Event.print
          (pdfSummaryMsg
            (process_pdf_file env args.input (mainFolder args)).1.length
            args.output)] := by
  unfold main
  rw [hext]
  simp

theorem fwriteChunks_pairs (out : String) (rs : List PageResult) :
    fwriteChunks out (rs.flatMap fun r =>
      [Event.fwrite out (sepChunk r.page), Event.fwrite out r.text]) =
      rs.flatMap fun r => [sepChunk r.page, r.text] := by
  induction rs with
  | nil => rfl
  | cons r t ih =>
    simp only [List.flatMap_cons, List.cons_append, List.nil_append,
      fwriteChunks, List.filterMap_cons] at ih ⊢
    simp only [ite_true]
    rw [ih]

theorem pairs_length (rs : List PageResult) :
    (rs.flatMap fun r => [sepChunk r.page, r.text]).length = 2 * rs.length := by
  induction rs with
  | nil => rfl
  | cons r t ih =>
    simp only [List.flatMap_cons, List.cons_append, List.nil_append,
      List.length_cons, ih, List.length_append]
    omega

theorem pairs_getD (rs : List PageResult) :
    ∀ k, k < rs.length →
      ((rs.flatMap fun r => [sepChunk r.page, r.text]).getD (2 * k) "" =
        sepChunk ((rs.getD k ⟨0, ""⟩).page)) ∧
      ((rs.flatMap fun r => [sepChunk r.page, r.text]).getD (2 * k + 1) "" =
        (rs.getD k ⟨0, ""⟩).text) := by
  induction rs with
  | nil => intro k hk; simp at hk
  | cons r t ih =>
    intro k hk
    cases k with
    | zero => exact ⟨rfl, rfl⟩
    | succ k2 =>
      have hk2 : k2 < t.length := by
        simp only [List.length_cons] at hk
        omega
      obtain ⟨ha, hb⟩ := ih k2 hk2
      have e1 : ((r :: t).flatMap fun r => [sepChunk r.page, r.text]) =
          sepChunk r.page :: r.text :: (t.flatMap fun r => [sepChunk r.page, r.text]) := rfl
      constructor
      · rw [(by omega : 2 * (k2 + 1) = 2 * k2 + 1 + 1), e1,
          List.getD_cons_succ, List.getD_cons_succ, List.getD_cons_succ]
        exact ha
      · rw [(by omega : 2 * (k2 + 1) + 1 = (2 * k2 + 1) + 1 + 1), e1,
          List.getD_cons_succ, List.getD_cons_succ, List.getD_cons_succ]
        exact hb

theorem getD_map_page (l : List PageResult) :
    ∀ k, (l.map PageResult.page).getD k 0 = (l.getD k ⟨0, ""⟩).page := by
  induction l with
  | nil => intro k; cases k <;> rfl
  | cons r t ih =>
    intro k
    cases k with
    | zero => rfl
    | succ k2 =>
      simp only [List.map_cons, List.getD_cons_succ]
      exact ih k2

theorem range'_one_getD (N k : Nat) (hk : k < N) :
    (List.range' 1 N).getD k 0 = k + 1 := by
  have hlen : k < (List.range' 1 N).length := by
    simp only [List.length_range']
    omega
  rw [List.getD_eq_getElem _ _ hlen, List.getElem_range'_1]
  omega

theorem results_page_getD (results : List PageResult) (N k : Nat)
    (hmap : results.map PageResult.page = List.range' 1 N) (hk : k < N) :
    (results.getD k ⟨0, ""⟩).page = k + 1 := by
  rw [← getD_map_page, hmap]
  exact range'_one_getD N k hk

theorem fwriteChunks_of_main_pdf (env : Env) (args : Args)
    (hext : fileExt args.input = ".pdf") :
    fwriteChunks args.output (main env args) =
      (process_pdf_file env args.input (mainFolder args)).1.flatMap fun r =>
        [sepChunk r.page, r.text] := by
  rw [main_pdf_eq env args hext, fwriteChunks_append, fwriteChunks_append]
  have hz := fwriteChunks_nil_of_no_output args.output _
    (process_pdf_file_no_output env args.input (mainFolder args))
  rw [hz]
  have h1 : fwriteChunks args.output
      (Event.fopen args.output ::
        (process_pdf_file env args.input (mainFolder args)).1.flatMap fun r =>
          [Event.fwrite args.output (sepChunk r.page),
           Event.fwrite args.output r.text]) =
      (process_pdf_file env args.input (mainFolder args)).1.flatMap fun r =>
        [sepChunk r.page, r.text] := by
    simp only [fwriteChunks, List.filterMap_cons]
    exact fwriteChunks_pairs args.output _
  rw [h1]
  simp [fwriteChunks]

/-- C1: for a PDF whose rasterization yields the page images and whose
per-page loop completes without exception, process_pdf_file returns exactly
one result per page with page numbers 1..N in ascending order, and the
output text file written by main contains exactly N page separator lines in
ascending numeric order, each written immediately before its page's text. -/
theorem pdf_success_pages_and_output (env : Env) (args : Args)
    (images : List Img) (results : List PageResult)
    (hext : fileExt args.input = ".pdf")
    (hconv : env.convert_from_path args.input = Except.ok images)
    (hok : (pdfTry env args.input (mainFolder args)).1 = Except.ok results) :
    (process_pdf_file env args.input (mainFolder args)).1 = results ∧
    results.length = images.length ∧
    results.map PageResult.page = List.range' 1 images.length ∧
    (fwriteChunks args.output (main env args)).length = 2 * images.length ∧
    ∀ k, k < images.length →
      (fwriteChunks args.output (main env args)).getD (2 * k) "" =
        sepChunk (k + 1) ∧
      (fwriteChunks args.output (main env args)).getD (2 * k + 1) "" =
        (results.getD k ⟨0, ""⟩).text := by
  obtain ⟨hloop, hmk, hevs⟩ :=
    pdfTry_ok_parts env args.input (mainFolder args) images results hconv hok
  have hmap := pdfLoop_ok_pages env (mainFolder args) images.length images 0 results hloop
  have hlen := pdfLoop_ok_length env (mainFolder args) images.length images 0 results hloop
  obtain ⟨hp1, hp2⟩ := process_pdf_file_of_ok env args.input (mainFolder args) results hok
  have hchunks : fwriteChunks args.output (main env args) =
      results.flatMap fun r => [sepChunk r.page, r.text] := by
    rw [fwriteChunks_of_main_pdf env args hext, hp1]
  refine ⟨hp1, hlen, hmap, ?_, ?_⟩
  · rw [hchunks, pairs_length, hlen]
  · intro k hk
    have hk2 : k < results.length := by omega
    obtain ⟨ha, hb⟩ := pairs_getD results k hk2
    rw [results_page_getD results images.length k hmap hk] at ha
    rw [hchunks]
    exact ⟨ha, hb⟩

/-- Witness for pdf_success_pages_and_output on a concrete two-page run. -/
theorem pdf_success_pages_and_output_witness :
    fileExt argsPdf.input = ".pdf" ∧
    ((process_pdf_file envOK argsPdf.input (mainFolder argsPdf)).1 =
      [⟨1, "hello"⟩, ⟨2, "hello"⟩] ∧
     ([(⟨1, "hello"⟩ : PageResult), ⟨2, "hello"⟩]).length =
       ([imgA, imgB] : List Img).length ∧
     ([(⟨1, "hello"⟩ : PageResult), ⟨2, "hello"⟩]).map PageResult.page =
       List.range' 1 ([imgA, imgB] : List Img).length ∧
     (fwriteChunks argsPdf.output (main envOK argsPdf)).length =
       2 * ([imgA, imgB] : List Img).length ∧
     ∀ k, k < ([imgA, imgB] : List Img).length →
       (fwriteChunks argsPdf.output (main envOK argsPdf)).getD (2 * k) "" =
         sepChunk (k + 1) ∧
       (fwriteChunks argsPdf.output (main envOK argsPdf)).getD (2 * k + 1) "" =
         (([(⟨1, "hello"⟩ : PageResult), ⟨2, "hello"⟩]).getD k ⟨0, ""⟩).text) :=
  ⟨rfl, pdf_success_pages_and_output envOK argsPdf [imgA, imgB]
    [⟨1, "hello"⟩, ⟨2, "hello"⟩] rfl rfl rfl⟩

/-- C2: if any exception is raised anywhere inside process_pdf_file's
per-page loop, the function returns the empty list, discarding all page
results collected for earlier pages, and logs the PDF error message. -/
theorem pdf_page_error_empty (env : Env) (path : String)
    (folder : Option String) (images : List Img) (e : String)
    (hmk : (mkdirsStep env folder).1 = Except.ok ())
    (hconv : env.convert_from_path path = Except.ok images)
    (hloop : (pdfLoop env folder images.length images 0).1 = Except.error e) :
    (process_pdf_file env path folder).1 = [] ∧
    Event.print (pdfErrMsg path e) ∈ (process_pdf_file env path folder).2 := by
  have htr : (pdfTry env path folder).1 = Except.error e := by
    cases hmkd : mkdirsStep env folder with
    | mk mfst mevs =>
      rw [hmkd] at hmk
      simp only at hmk
      subst hmk
      simp [pdfTry, hmkd, hconv, hloop]
  obtain ⟨h1, h2⟩ := process_pdf_file_of_error env path folder e htr
  refine ⟨h1, ?_⟩
  rw [h2]
  simp

/-- Witness for pdf_page_error_empty: the OCR engine raises on page 2 after
page 1 succeeded, and the whole PDF call returns the empty list. -/
theorem pdf_page_error_empty_witness :
    (mkdirsStep envBoom none).1 = Except.ok () ∧
    envBoom.convert_from_path "doc.pdf" = Except.ok [imgA, imgB] ∧
    (pdfLoop envBoom none ([imgA, imgB] : List Img).length [imgA, imgB] 0).1 =
      Except.error "boom" ∧
    (pdfPageStep envBoom none 2 1 imgA).1 = Except.ok ⟨1, "hello"⟩ ∧
    (process_pdf_file envBoom "doc.pdf" none).1 = [] ∧
    Event.print (pdfErrMsg "doc.pdf" "boom") ∈
      (process_pdf_file envBoom "doc.pdf" none).2 :=
  ⟨rfl, rfl, rfl, rfl,
    (pdf_page_error_empty envBoom "doc.pdf" none [imgA, imgB] "boom" rfl rfl rfl).1,
    (pdf_page_error_empty envBoom "doc.pdf" none [imgA, imgB] "boom" rfl rfl rfl).2⟩

theorem imageTry_no_output (env : Env) (path : String) :
    ∀ e ∈ (imageTry env path).2, isOutputEvent e = false := by
  intro e he
  simp only [imageTry] at he
  cases hi : env.imread path with
  | none =>
    simp only [hi, List.mem_singleton] at he
    subst he; rfl
  | some img =>
    simp only [hi] at he
    cases hw : env.imwrite ("preprocessed_" ++ basenameStr path)
        (preprocess_image env.T img) with
    | error e2 => simp only [hw] at he; simp at he
    | ok u =>
      simp only [hw] at he
      cases ho : env.image_to_string (preprocess_image env.T img) with
      | error e2 =>
        simp only [ho, List.mem_cons, List.mem_singleton] at he
        rcases he with he | he | he
        · subst he; rfl
        · subst he; rfl
        · simp at he
      | ok text =>
        simp only [ho, List.mem_cons, List.mem_singleton] at he
        rcases he with he | he | he
        · subst he; rfl
        · subst he; rfl
        · simp at he

theorem process_image_file_no_output (env : Env) (path : String) :
    ∀ e ∈ (process_image_file env path).2, isOutputEvent e = false := by
  intro e he
  have hit := imageTry_no_output env path
  cases htr : imageTry env path with
  | mk ifst ievs =>
    rw [htr] at hit
    cases ifst with
    | error e2 =>
      simp only [process_image_file, htr, List.mem_append, List.mem_singleton] at he
      rcases he with he | he
      · exact hit e he
      · subst he; rfl
    | ok r =>
      simp only [process_image_file, htr] at he
      exact hit e he

theorem process_image_file_prints (env : Env) (path : String) :
    ∀ s, Event.print s ∈ (process_image_file env path).2 →
      s = loadFailMsg path ∨ ∃ e2, s = imageErrMsg path e2 := by
  intro s hs
  cases htr : imageTry env path with
  | mk ifst ievs =>
    have hievs : ∀ s2, Event.print s2 ∈ ievs → s2 = loadFailMsg path := by
      intro s2 hs2
      simp only [imageTry] at htr
      cases hi : env.imread path with
      | none =>
        simp only [hi] at htr
        injection htr with h1 h2
        subst h2
        simp only [List.mem_singleton] at hs2
        injection hs2
      | some img =>
        simp only [hi] at htr
        cases hw : env.imwrite ("preprocessed_" ++ basenameStr path)
            (preprocess_image env.T img) with
        | error e2 =>
          simp only [hw] at htr
          injection htr with h1 h2
          subst h2
          simp at hs2
        | ok u =>
          simp only [hw] at htr
          cases ho : env.image_to_string (preprocess_image env.T img) with
          | error e2 =>
            simp only [ho] at htr
            injection htr with h1 h2
            subst h2
            simp at hs2
          | ok text =>
            simp only [ho] at htr
            injection htr with h1 h2
            subst h2
            simp at hs2
    cases ifst with
    | error e2 =>
      simp only [process_image_file, htr, List.mem_append, List.mem_singleton] at hs
      rcases hs with hs | hs
      · exact Or.inl (hievs s hs)
      · injection hs with h3
        exact Or.inr ⟨e2, h3⟩
    | ok r =>
      simp only [process_image_file, htr] at hs
      exact Or.inl (hievs s hs)

theorem imageTry_ok_some_evs (env : Env) (path t : String) (evs : List Event)
    (h : imageTry env path = (Except.ok (some t), evs)) :
    evs = [Event.writeImage ("preprocessed_" ++ basenameStr path), Event.ocr] := by
  simp only [imageTry] at h
  cases hi : env.imread path with
  | none =>
    simp only [hi] at h
    injection h with h1 h2
    injection h1 with h3
    cases h3
  | some img =>
    simp only [hi] at h
    cases hw : env.imwrite ("preprocessed_" ++ basenameStr path)
        (preprocess_image env.T img) with
    | error e2 =>
      simp only [hw] at h
      injection h with h1 h2
      cases h1
    | ok u =>
      simp only [hw] at h
      cases ho : env.image_to_string (preprocess_image env.T img) with
      | error e2 =>
        simp only [ho] at h
        injection h with h1 h2
        cases h1
      | ok text =>
        simp only [ho] at h
        injection h with h1 h2
        exact h2.symm

theorem process_image_file_some_evs (env : Env) (path t : String)
    (h : (process_image_file env path).1 = some t) :
    (process_image_file env path).2 =
      [Event.writeImage ("preprocessed_" ++ basenameStr path), Event.ocr] := by
  cases htr : imageTry env path with
  | mk ifst ievs =>
    cases ifst with
    | error e2 => simp [process_image_file, htr] at h
    | ok r =>
      simp only [process_image_file, htr] at h ⊢
      subst h
      exact imageTry_ok_some_evs env path t ievs htr

theorem process_image_file_of_err (env : Env) (path e : String)
    (h : (imageTry env path).1 = Except.error e) :
    (process_image_file env path).1 = none ∧
    (process_image_file env path).2 =
      (imageTry env path).2 ++ [Event.print (imageErrMsg path e)] := by
  cases htr : imageTry env path with
  | mk ifst ievs =>
    rw [htr] at h
    simp only at h
    subst h
    simp [process_image_file, htr]

theorem process_image_file_noload (env : Env) (path : String)
    (h : env.imread path = none) :
    process_image_file env path = (none, [Event.print (loadFailMsg path)]) := by
  simp [process_image_file, imageTry, h]

theorem contains_ne_pdf (s : String)
    (h : supportedImageExts.contains s = true) : s ≠ ".pdf" := by
  intro he
  subst he
  revert h
  decide

theorem main_image_none_eq (env : Env) (args : Args)
    (hext : supportedImageExts.contains (fileExt args.input) = true)
    (hnone : (process_image_file env args.input).1 = none) :
    main env args = (process_image_file env args.input).2 := by
  have hne := contains_ne_pdf _ hext
  have hmem : fileExt args.input ∈ supportedImageExts := by simpa using hext
  cases hres : process_image_file env args.input with
  | mk rfst revs =>
    rw [hres] at hnone
    simp only at hnone
    subst hnone
    simp [main, hne, hmem, hres]

theorem main_image_empty_eq (env : Env) (args : Args)
    (hext : supportedImageExts.contains (fileExt args.input) = true)
    (hsome : (process_image_file env args.input).1 = some "") :
    main env args = (process_image_file env args.input).2 := by
  have hne := contains_ne_pdf _ hext
  have hmem : fileExt args.input ∈ supportedImageExts := by simpa using hext
  cases hres : process_image_file env args.input with
  | mk rfst revs =>
    rw [hres] at hsome
    simp only at hsome
    subst hsome
    simp [main, hne, hmem, hres]
    rfl

theorem loadFailMsg_ne_success (p out : String) :
    loadFailMsg p ≠ imageSuccessMsg out := by
  intro h
  have h2 := congrArg (fun s : String => s.data.get? 0) h
  simp [loadFailMsg, imageSuccessMsg] at h2

theorem imageErrMsg_ne_success (p e out : String) :
    imageErrMsg p e ≠ imageSuccessMsg out := by
  intro h
  have h2 := congrArg (fun s : String => s.data.get? 1) h
  simp [imageErrMsg, imageSuccessMsg] at h2

/-- C6: for every input path whose lowercased extension is not .pdf and not
one of the supported image extensions, main prints an error naming the
unsupported extension and the supported formats, writes no file of any
kind, creates no directory, and never invokes the OCR engine. -/
theorem unsupported_ext_no_output_no_ocr (env : Env) (args : Args)
    (h1 : fileExt args.input ≠ ".pdf")
    (h2 : supportedImageExts.contains (fileExt args.input) = false) :
    main env args =
      [Event.print (unsupportedMsg (fileExt args.input)),
       Event.print supportedMsg] ∧
    (∀ p, Event.fopen p ∉ main env args) ∧
    (∀ p c, Event.fwrite p c ∉ main env args) ∧
    (∀ p, Event.writeImage p ∉ main env args) ∧
    (∀ d2, Event.mkdir d2 ∉ main env args) ∧
    Event.ocr ∉ main env args := by
  have hm : main env args =
      [Event.print (unsupportedMsg (fileExt args.input)),
       Event.print supportedMsg] := by
    have hnmem : fileExt args.input ∉ supportedImageExts := by simpa using h2
    simp [main, h1, hnmem]
  refine ⟨hm, ?_, ?_, ?_, ?_, ?_⟩
  · intro p hp; rw [hm] at hp; simp at hp
  · intro p c hp; rw [hm] at hp; simp at hp
  · intro p hp; rw [hm] at hp; simp at hp
  · intro d2 hp; rw [hm] at hp; simp at hp
  · intro hp; rw [hm] at hp; simp at hp

/-- Witness for unsupported_ext_no_output_no_ocr at a .txt input. -/
theorem unsupported_ext_witness :
    fileExt argsTxt.input ≠ ".pdf" ∧
    supportedImageExts.contains (fileExt argsTxt.input) = false ∧
    main envOK argsTxt =
      [Event.print (unsupportedMsg (fileExt argsTxt.input)),
       Event.print supportedMsg] ∧
    Event.ocr ∉ main envOK argsTxt :=
  ⟨by decide, by decide,
   (unsupported_ext_no_output_no_ocr envOK argsTxt (by decide) (by decide)).1,
   (unsupported_ext_no_output_no_ocr envOK argsTxt (by decide) (by decide)).2.2.2.2.2⟩

/-- C7: for every single-image input whose load fails or whose processing
raises, process_image_file logs a message naming the offending path and
returns none, and main neither opens nor writes any text file and prints no
success message. -/
theorem image_failure_no_output (env : Env) (args : Args)
    (hext : supportedImageExts.contains (fileExt args.input) = true)
    (hnone : (process_image_file env args.input).1 = none) :
    main env args = (process_image_file env args.input).2 ∧
    (∀ p, Event.fopen p ∉ main env args) ∧
    (∀ p c, Event.fwrite p c ∉ main env args) ∧
    Event.print (imageSuccessMsg args.output) ∉ main env args ∧
    (env.imread args.input = none →
      Event.print (loadFailMsg args.input) ∈ main env args) ∧
    (∀ e, (imageTry env args.input).1 = Except.error e →
      Event.print (imageErrMsg args.input e) ∈ main env args) := by
  have hm := main_image_none_eq env args hext hnone
  have hno := process_image_file_no_output env args.input
  refine ⟨hm, ?_, ?_, ?_, ?_, ?_⟩
  · intro p hp
    rw [hm] at hp
    exact fopen_not_mem_of_no_output p _ hno hp
  · intro p c hp
    rw [hm] at hp
    exact fwrite_not_mem_of_no_output p c _ hno hp
  · intro hp
    rw [hm] at hp
    rcases process_image_file_prints env args.input _ hp with h3 | ⟨e2, h3⟩
    · exact loadFailMsg_ne_success args.input args.output h3.symm
    · exact imageErrMsg_ne_success args.input e2 args.output h3.symm
  · intro hload
    rw [hm, process_image_file_noload env args.input hload]
    simp
  · intro e herr
    obtain ⟨h3, h4⟩ := process_image_file_of_err env args.input e herr
    rw [hm, h4]
    simp

/-- Witness for image_failure_no_output when the decoder returns no buffer. -/
theorem image_failure_witness :
    supportedImageExts.contains (fileExt argsJpg.input) = true ∧
    (process_image_file envNoLoad argsJpg.input).1 = none ∧
    main envNoLoad argsJpg = (process_image_file envNoLoad argsJpg.input).2 ∧
    Event.print (imageSuccessMsg argsJpg.output) ∉ main envNoLoad argsJpg ∧
    Event.print (loadFailMsg argsJpg.input) ∈ main envNoLoad argsJpg :=
  ⟨by decide, rfl,
   (image_failure_no_output envNoLoad argsJpg (by decide) rfl).1,
   (image_failure_no_output envNoLoad argsJpg (by decide) rfl).2.2.2.1,
   (image_failure_no_output envNoLoad argsJpg (by decide) rfl).2.2.2.2.1 rfl⟩

/-- C9: when loading and OCR succeed but the OCR engine returns the empty
string, main writes no output file and prints no success message — at the
trace level the run is exactly the processor's trace, with no file open, no
file write and no print at all, just as for a failed run. -/
theorem empty_text_no_output (env : Env) (args : Args)
    (hext : supportedImageExts.contains (fileExt args.input) = true)
    (hsome : (process_image_file env args.input).1 = some "") :
    main env args = (process_image_file env args.input).2 ∧
    main env args =
      [Event.writeImage ("preprocessed_" ++ basenameStr args.input), Event.ocr] ∧
    (∀ p, Event.fopen p ∉ main env args) ∧
    (∀ p c, Event.fwrite p c ∉ main env args) ∧
    (∀ s, Event.print s ∉ main env args) := by
  have hm := main_image_empty_eq env args hext hsome
  have hevs := process_image_file_some_evs env args.input "" hsome
  have hm2 : main env args =
      [Event.writeImage ("preprocessed_" ++ basenameStr args.input), Event.ocr] := by
    rw [hm, hevs]
  refine ⟨hm, hm2, ?_, ?_, ?_⟩
  · intro p hp; rw [hm2] at hp; simp at hp
  · intro p c hp; rw [hm2] at hp; simp at hp
  · intro s hp; rw [hm2] at hp; simp at hp

/-- Witness for empty_text_no_output with an OCR engine returning "". -/
theorem empty_text_witness :
    supportedImageExts.contains (fileExt argsPng.input) = true ∧
    (process_image_file envEmptyText argsPng.input).1 = some "" ∧
    main envEmptyText argsPng = (process_image_file envEmptyText argsPng.input).2 ∧
    (∀ s, Event.print s ∉ main envEmptyText argsPng) :=
  ⟨by decide, rfl,
   (empty_text_no_output envEmptyText argsPng (by decide) rfl).1,
   (empty_text_no_output envEmptyText argsPng (by decide) rfl).2.2.2.2⟩

theorem wip_fwrite_pairs (out : String) (rs : List PageResult) :
    writeImagePaths (rs.flatMap fun r =>
      [Event.fwrite out (sepChunk r.page), Event.fwrite out r.text]) = [] := by
  induction rs with
  | nil => rfl
  | cons r t ih =>
    simp only [List.flatMap_cons, List.cons_append, List.nil_append,
      writeImagePaths, List.filterMap_cons] at ih ⊢
    exact ih

theorem wip_main_output_block (out : String) (rs : List PageResult) (msg : String) :
    writeImagePaths
      ((Event.fopen out ::
        rs.flatMap fun r =>
          [Event.fwrite out (sepChunk r.page), Event.fwrite out r.text]) ++
        [Event.print msg]) = [] := by
  rw [writeImagePaths_append]
  have h1 : writeImagePaths
      (Event.fopen out ::
        rs.flatMap fun r =>
          [Event.fwrite out (sepChunk r.page), Event.fwrite out r.text]) = [] := by
    simp only [writeImagePaths, List.filterMap_cons]
    exact wip_fwrite_pairs out rs
  rw [h1]
  rfl

theorem two_flatMap_length (l : List Nat) (f g : Nat → String) :
    (l.flatMap fun p => [f p, g p]).length = 2 * l.length := by
  induction l with
  | nil => rfl
  | cons a t ih =>
    simp only [List.flatMap_cons, List.cons_append, List.nil_append,
      List.length_cons, List.length_append, ih]
    omega

theorem pdfPageStep_none_events (env : Env) (total n : Nat) (img : Img) :
    ∀ e ∈ (pdfPageStep env none total n img).2,
      isWriteImageEvent e = false ∧ isMkdirEvent e = false := by
  intro e he
  have hsa : saveArtifacts env none n img (preprocess_image env.T img) =
      (Except.ok (), []) := rfl
  simp only [pdfPageStep, hsa] at he
  cases ho : env.image_to_string (preprocess_image env.T img) with
  | error e2 =>
    simp only [ho, List.cons_append, List.nil_append, List.mem_cons,
      List.mem_singleton] at he
    rcases he with he | he | he
    · subst he; exact ⟨rfl, rfl⟩
    · subst he; exact ⟨rfl, rfl⟩
    · simp at he
  | ok text =>
    simp only [ho, List.cons_append, List.nil_append, List.mem_cons,
      List.mem_singleton] at he
    rcases he with he | he | he
    · subst he; exact ⟨rfl, rfl⟩
    · subst he; exact ⟨rfl, rfl⟩
    · simp at he

theorem pdfLoop_none_events (env : Env) (total : Nat) :
    ∀ (images : List Img) (i : Nat),
      ∀ e ∈ (pdfLoop env none total images i).2,
        isWriteImageEvent e = false ∧ isMkdirEvent e = false := by
  intro images
  induction images with
  | nil => intro i e he; simp [pdfLoop] at he
  | cons image rest ih =>
    intro i e he
    simp only [pdfLoop] at he
    split at he
    · exact pdfPageStep_none_events env total (i + 1) image e he
    · simp only [List.mem_append] at he
      rcases he with he | he
      · exact pdfPageStep_none_events env total (i + 1) image e he
      · exact ih (i + 1) e he

theorem pdfTry_none_events (env : Env) (path : String) :
    ∀ e ∈ (pdfTry env path none).2,
      isWriteImageEvent e = false ∧ isMkdirEvent e = false := by
  intro e he
  have hmk : mkdirsStep env none = (Except.ok (), []) := rfl
  simp only [pdfTry, hmk, List.nil_append] at he
  cases hconv : env.convert_from_path path with
  | error e2 =>
    simp only [hconv, List.mem_singleton] at he
    subst he; exact ⟨rfl, rfl⟩
  | ok images =>
    simp only [hconv, List.cons_append, List.mem_append, List.mem_cons,
      List.mem_singleton, List.not_mem_nil] at he
    rcases he with he | he | he
    · subst he; exact ⟨rfl, rfl⟩
    · exact he.elim
    · exact pdfLoop_none_events env images.length images 0 e he

theorem process_pdf_file_none_events (env : Env) (path : String) :
    ∀ e ∈ (process_pdf_file env path none).2,
      isWriteImageEvent e = false ∧ isMkdirEvent e = false := by
  intro e he
  have htry := pdfTry_none_events env path
  cases htr : pdfTry env path none with
  | mk tfst tevs =>
    rw [htr] at htry
    cases tfst with
    | error e2 =>
      simp only [process_pdf_file, htr, List.mem_append, List.mem_singleton] at he
      rcases he with he | he
      · exact htry e he
      · subst he; exact ⟨rfl, rfl⟩
    | ok results =>
      simp only [process_pdf_file, htr] at he
      exact htry e he

/-- C10: for every PDF input, main unconditionally opens (creates or
truncates) the output file and prints the page-count summary, even when
process_pdf_file returns the empty list, in which case no chunk at all is
written to the file; a failed single-image run, in contrast, never opens
the output file. -/
theorem pdf_always_writes_output (env : Env) (args : Args)
    (hext : fileExt args.input = ".pdf") :
    Event.fopen args.output ∈ main env args ∧
    Event.print
      (pdfSummaryMsg
        (process_pdf_file env args.input (mainFolder args)).1.length
        args.output) ∈ main env args ∧
    ((process_pdf_file env args.input (mainFolder args)).1 = [] →
      fwriteChunks args.output (main env args) = []) ∧
    (∀ (env2 : Env) (args2 : Args),
      supportedImageExts.contains (fileExt args2.input) = true →
      (process_image_file env2 args2.input).1 = none →
      ∀ p, Event.fopen p ∉ main env2 args2) := by
  have hm := main_pdf_eq env args hext
  refine ⟨?_, ?_, ?_, ?_⟩
  · rw [hm]; simp
  · rw [hm]; simp
  · intro hempty
    rw [fwriteChunks_of_main_pdf env args hext, hempty]
    rfl
  · intro env2 args2 hext2 hnone2 p hp
    rw [main_image_none_eq env2 args2 hext2 hnone2] at hp
    exact fopen_not_mem_of_no_output p _
      (process_image_file_no_output env2 args2.input) hp

/-- Witness for pdf_always_writes_output on a run whose rasterization
raises: the output file is still opened, the summary still printed, and the
file content is empty. -/
theorem pdf_always_writes_output_witness :
    fileExt argsPdf.input = ".pdf" ∧
    (process_pdf_file envConvFail argsPdf.input (mainFolder argsPdf)).1 = [] ∧
    Event.fopen argsPdf.output ∈ main envConvFail argsPdf ∧
    Event.print
      (pdfSummaryMsg
        (process_pdf_file envConvFail argsPdf.input (mainFolder argsPdf)).1.length
        argsPdf.output) ∈ main envConvFail argsPdf ∧
    fwriteChunks argsPdf.output (main envConvFail argsPdf) = [] :=
  ⟨rfl, rfl,
   (pdf_always_writes_output envConvFail argsPdf rfl).1,
   (pdf_always_writes_output envConvFail argsPdf rfl).2.1,
   (pdf_always_writes_output envConvFail argsPdf rfl).2.2.1 rfl⟩

/-- C8 counterexample: with the pages flag set but the pages directory the
empty string, a successful one-page run writes no artifact file at all, so
the artifacts directory does not contain 2 × N files. -/
theorem artifacts_cex :
    fileExt argsCex.input = ".pdf" ∧
    argsCex.pages = true ∧
    (process_pdf_file envOnePage argsCex.input (mainFolder argsCex)).1.length = 1 ∧
    writeImagePaths (main envOnePage argsCex) = [] ∧
    (∀ d2, Event.mkdir d2 ∉ main envOnePage argsCex) ∧
    ¬ (writeImagePaths (main envOnePage argsCex)).length =
        2 * (process_pdf_file envOnePage argsCex.input (mainFolder argsCex)).1.length := by
  refine ⟨rfl, rfl, rfl, rfl, ?_, by decide⟩
  intro d2 hp
  have hm : main envOnePage argsCex =
      [Event.print (convertingMsg "doc.pdf"),
       Event.print (pageMsg 1 1), Event.ocr,
       Event.fopen "out.txt",
       Event.fwrite "out.txt" (sepChunk 1), Event.fwrite "out.txt" "hello",
       Event.print (pdfSummaryMsg 1 "out.txt")] := rfl
  rw [hm] at hp
  simp at hp

/-- C8 amended: for every PDF run, if the pages flag is set and the pages
directory is a non-empty string, a successful N-page run writes exactly the
2 × N artifact files page_i.jpg and preprocessed_page_i.jpg for i = 1..N
into the artifacts directory, which is created; if the pages flag is unset,
no artifact file is written and no directory is created (with an empty
pages directory string the saving is skipped as well, as the
counterexample shows). -/
theorem artifacts_amended :
    (∀ (env : Env) (args : Args) (images : List Img) (results : List PageResult),
      args.pages = true → args.pagesDir ≠ "" → fileExt args.input = ".pdf" →
      env.convert_from_path args.input = Except.ok images →
      (pdfTry env args.input (mainFolder args)).1 = Except.ok results →
      writeImagePaths (main env args) =
        ((List.range' 1 images.length).flatMap fun p =>
          [joinPath args.pagesDir (pageFileName p),
           joinPath args.pagesDir (preprocessedFileName p)]) ∧
      (writeImagePaths (main env args)).length = 2 * images.length ∧
      Event.mkdir args.pagesDir ∈ main env args) ∧
    (∀ (env : Env) (args : Args), args.pages = false →
      fileExt args.input = ".pdf" →
      (∀ p, Event.writeImage p ∉ main env args) ∧
      (∀ d2, Event.mkdir d2 ∉ main env args)) := by
  constructor
  · intro env args images results hpages hdir hext hconv hok
    have hfolder : mainFolder args = some args.pagesDir := by
      simp [mainFolder, hpages]
    rw [hfolder] at hok
    obtain ⟨hloop, hmk, hevs⟩ :=
      pdfTry_ok_parts env args.input (some args.pagesDir) images results hconv hok
    have hart := pdfLoop_artifacts env args.pagesDir images.length hdir
      images 0 results hloop
    have hmkevs := mkdirsStep_some_ok env args.pagesDir hdir hmk
    obtain ⟨hp1, hp2⟩ :=
      process_pdf_file_of_ok env args.input (some args.pagesDir) results hok
    have hm := main_pdf_eq env args hext
    rw [hfolder] at hm
    have hwip : writeImagePaths (main env args) =
        (List.range' 1 images.length).flatMap fun p =>
          [joinPath args.pagesDir (pageFileName p),
           joinPath args.pagesDir (preprocessedFileName p)] := by
      rw [hm, hp2, hevs, hmkevs]
      rw [writeImagePaths_append, writeImagePaths_append, writeImagePaths_append,
        writeImagePaths_append]
      rw [hart]
      have hfm : writeImagePaths
          (Event.fopen args.output ::
            (process_pdf_file env args.input (some args.pagesDir)).1.flatMap fun r =>
              [Event.fwrite args.output (sepChunk r.page),
               Event.fwrite args.output r.text]) = [] := by
        simp only [writeImagePaths, List.filterMap_cons]
        exact wip_fwrite_pairs args.output _
      rw [hfm]
      simp [writeImagePaths]
    refine ⟨hwip, ?_, ?_⟩
    · rw [hwip, two_flatMap_length, List.length_range']
    · rw [hm, hp2, hevs, hmkevs]
      simp
  · intro env args hpages hext
    have hfolder : mainFolder args = none := by
      simp [mainFolder, hpages]
    have hm := main_pdf_eq env args hext
    rw [hfolder] at hm
    have hker : ∀ e ∈ main env args,
        isWriteImageEvent e = false ∧ isMkdirEvent e = false := by
      intro e he
      rw [hm] at he
      simp only [List.mem_append, List.mem_cons, List.mem_singleton] at he
      rcases he with (he | he | he) | he
      · exact process_pdf_file_none_events env args.input e he
      · subst he; exact ⟨rfl, rfl⟩
      · rcases List.mem_flatMap.1 he with ⟨r, hr, hmem⟩
        simp only [List.mem_cons, List.mem_singleton, List.not_mem_nil] at hmem
        rcases hmem with hmem | hmem | hmem
        · subst hmem; exact ⟨rfl, rfl⟩
        · subst hmem; exact ⟨rfl, rfl⟩
        · exact hmem.elim
      · rcases he with he | he
        · subst he; exact ⟨rfl, rfl⟩
        · exact absurd he (by simp)
    constructor
    · intro p hp
      have := (hker _ hp).1
      simp [isWriteImageEvent] at this
    · intro d2 hp
      have := (hker _ hp).2
      simp [isMkdirEvent] at this

/-- Witness for artifacts_amended on a concrete one-page run with and
without the pages flag. -/
theorem artifacts_amended_witness :
    (writeImagePaths (main envOnePage argsPages) =
      ((List.range' 1 ([imgA] : List Img).length).flatMap fun p =>
        [joinPath argsPages.pagesDir (pageFileName p),
         joinPath argsPages.pagesDir (preprocessedFileName p)]) ∧
     (writeImagePaths (main envOnePage argsPages)).length =
       2 * ([imgA] : List Img).length ∧
     Event.mkdir argsPages.pagesDir ∈ main envOnePage argsPages) ∧
    ((∀ p, Event.writeImage p ∉ main envOnePage argsPdf) ∧
     (∀ d2, Event.mkdir d2 ∉ main envOnePage argsPdf)) :=
  ⟨artifacts_amended.1 envOnePage argsPages [imgA] [⟨1, "hello"⟩]
    rfl (by decide) rfl rfl rfl,
   artifacts_amended.2 envOnePage argsPdf rfl rfl⟩

end OCR
